import Mathlib

/-!
Shallow embedding of the datainterncronjob pipeline (src/scraper.py and
src/linkedin.py) and verification of its specification claims.

Python values that matter to the claims are either `None` or strings, so they
are modelled by `PyVal`.  Dictionary entries of a normalized listing are
modelled by `Field`, which additionally distinguishes a key that is missing
from the dictionary (Python `dict.get` returns the supplied default for a
missing key but returns the stored `None` for a key bound to `None`).
Exceptions are modelled with `Except PyError`.  Strings are lowered
character-wise (ASCII), matching `str.lower` on the ASCII keys the scraper
builds.
-/

deriving instance DecidableEq for Except

namespace DataInternCron

/-- Exception kinds raised by the modelled code paths. -/
inductive PyError where
  | attributeError
  | valueError
  | runtimeError
deriving DecidableEq

/-- A Python value stored in a record: `None` or a string. -/
inductive PyVal where
  | null
  | str (s : String)
deriving DecidableEq

/-- Python truthiness of a value: `None` and `""` are falsy. -/
def PyVal.truthy : PyVal → Bool
  | .null => false
  | .str s => !s.data.isEmpty

/-- How a value renders inside an f-string (`str(None) = "None"`). -/
def PyVal.asString : PyVal → String
  | .null => "None"
  | .str s => s

/-- Python `a or b`: `a` when truthy, else `b`. -/
def pyOr (a b : PyVal) : PyVal := if a.truthy then a else b

/-- A raw record from an API: a string-keyed dictionary (src/scraper.py
parses such dictionaries with chained `.get` calls). -/
abbrev RawRecord := List (String × PyVal)

/-- `job_data.get(key, None)`: the stored value, or `None` for a missing key. -/
def RawRecord.get (r : RawRecord) (k : String) : PyVal :=
  match List.lookup k r with
  | some v => v
  | none => .null

/-- One entry of a normalized-listing dictionary: the key may be missing
altogether, bound to `None`, or bound to a string. -/
inductive Field where
  | missing
  | null
  | str (s : String)
deriving DecidableEq

/-- Embeds a parsed value into a dictionary entry (the parsers always bind
every key, so their output fields are never `missing`). -/
def Field.ofVal : PyVal → Field
  | .null => .null
  | .str s => .str s

/-- A normalized listing: the six-key dictionary built by the parsers in
src/scraper.py and src/linkedin.py. -/
structure Job where
  logo : Field
  title : Field
  description : Field
  company : Field
  location : Field
  url : Field
deriving DecidableEq

/-- `job.get(key, default)` on a normalized listing: the default only
applies when the key is missing; a key bound to `None` yields `None`. -/
def Field.getD (f : Field) (d : String) : Option String :=
  match f with
  | .missing => some d
  | .null => none
  | .str s => some s

/-- ASCII lowering of a string, modelling `str.lower`. -/
def pyLowerStr (s : String) : String := ⟨s.data.map Char.toLower⟩

/-- `.lower()` on the result of a `dict.get`: raises `AttributeError`
when the value is `None` (src/scraper.py line 250). -/
def pyLower : Option String → Except PyError String
  | none => .error .attributeError
  | some s => .ok (pyLowerStr s)

/-- `true` iff the computation did not raise. -/
def exceptOk {ε α : Type} : Except ε α → Bool
  | .ok _ => true
  | .error _ => false

/-- The dedup key of `JobsScraper._remove_duplicates`: lowercased title,
an underscore, lowercased company, where both lookups are dict-gets
defaulting to the empty string; evaluating it raises when `title` or
`company` is bound to `None`. -/
def dedupKey (j : Job) : Except PyError String :=
  match pyLower (j.title.getD ""), pyLower (j.company.getD "") with
  | .ok t, .ok c => .ok (t ++ "_" ++ c)
  | .error e, _ => .error e
  | .ok _, .error e => .error e

/-- The loop body of `JobsScraper._remove_duplicates`: `seen` is the set of
keys already kept, `acc` the kept listings in reverse order. -/
def removeDuplicatesAux : List Job → List String → List Job → Except PyError (List Job)
  | [], _, acc => .ok acc.reverse
  | j :: rest, seen, acc =>
    match dedupKey j with
    | .error e => .error e
    | .ok key =>
      if key ∉ seen ∧ key ≠ "_" then
        removeDuplicatesAux rest (key :: seen) (j :: acc)
      else
        removeDuplicatesAux rest seen acc

/-- `JobsScraper._remove_duplicates` (src/scraper.py lines 243-257). -/
def removeDuplicates (jobs : List Job) : Except PyError (List Job) :=
  removeDuplicatesAux jobs [] []

/-- The dedup key as a plain string (meaningful when `dedupKey` does not
raise; used only to state specification-side properties). -/
def keyVal (j : Job) : String :=
  match dedupKey j with
  | .ok k => k
  | .error _ => ""

/-- Specification-side accumulator form of first-occurrence filtering,
used as a bridge in proofs. -/
def specAux : List Job → List String → List Job
  | [], _ => []
  | j :: rest, seen =>
    if keyVal j ∈ seen ∨ keyVal j = "_" then specAux rest seen
    else j :: specAux rest (keyVal j :: seen)

/-- Modelled from the specification text for the Deduplicator: keep, for each
distinct non-degenerate key, exactly the first-occurring listing with that
key, in the original order; drop all later listings with an identical key
and every listing whose key is the separator alone. -/
def specDedupe : List Job → List Job
  | [] => []
  | j :: rest =>
    if keyVal j = "_" then specDedupe rest
    else j :: specDedupe (rest.filter (fun j2 => keyVal j2 != keyVal j))
termination_by l => l.length
decreasing_by
  all_goals simp only [List.length_cons]
  · omega
  · exact Nat.lt_succ_of_le (List.length_filter_le _ _)

/-- The listing produced by `_parse_jsearch_job` for a record with none of
the looked-up keys: every field is bound to `None`. -/
def nullJob : Job := ⟨.null, .null, .null, .null, .null, .null⟩

/-- A listing with a given title and company (other fields `None`). -/
def titledJob (t c : String) : Job := ⟨.null, .str t, .null, .str c, .null, .null⟩

/-- The location composition of `_parse_jsearch_job` (src/scraper.py lines
196-205): city and country joined when both truthy, else whichever is
truthy, else the generic `job_location` value (`None` when missing). -/
def parseLocation (r : RawRecord) : PyVal :=
  if (r.get "job_city").truthy && (r.get "job_country").truthy then
    .str ((r.get "job_city").asString ++ ", " ++ (r.get "job_country").asString)
  else if (r.get "job_city").truthy then r.get "job_city"
  else if (r.get "job_country").truthy then r.get "job_country"
  else r.get "job_location"

/-- The description step of both parsers: when the value is a truthy string
containing `<`, run it through the HTML cleaner (an external capability
modelled as a function that may raise); else pass it through unchanged. -/
def cleanDescription (cleaner : String → Except PyError String) (d : PyVal) :
    Except PyError PyVal :=
  match d with
  | .null => .ok .null
  | .str s =>
    if !s.data.isEmpty && s.data.contains '<' then
      match cleaner s with
      | .ok t => .ok (.str t)
      | .error e => .error e
    else .ok (.str s)

/-- The body of `JobsScraper._parse_jsearch_job` before its `except` clause
(src/scraper.py lines 176-217). -/
def parseJsearchBody (cleaner : String → Except PyError String) (r : RawRecord) :
    Except PyError Job :=
  match cleanDescription cleaner (r.get "job_description") with
  | .error e => .error e
  | .ok description =>
    .ok ⟨Field.ofVal (r.get "employer_logo"),
         Field.ofVal (r.get "job_title"),
         Field.ofVal description,
         Field.ofVal (r.get "employer_name"),
         Field.ofVal (parseLocation r),
         Field.ofVal (pyOr (r.get "job_apply_link") (r.get "job_google_link"))⟩

/-- `JobsScraper._parse_jsearch_job`: the `except` clause turns any internal
exception into `None`. -/
def parseJsearchJob (cleaner : String → Except PyError String) (r : RawRecord) :
    Option Job :=
  match parseJsearchBody cleaner r with
  | .ok j => some j
  | .error _ => none

/-- The body of `JobsScraper._parse_active_jobs_db_job` before its `except`
clause (src/scraper.py lines 222-237). -/
def parseActiveJobsDbBody (cleaner : String → Except PyError String) (r : RawRecord) :
    Except PyError Job :=
  match cleanDescription cleaner (r.get "description") with
  | .error e => .error e
  | .ok description =>
    .ok ⟨Field.ofVal (pyOr (r.get "logo") (r.get "company_logo")),
         Field.ofVal (pyOr (pyOr (r.get "title") (r.get "job_title")) (r.get "name")),
         Field.ofVal description,
         Field.ofVal (pyOr (pyOr (r.get "company") (r.get "company_name")) (r.get "employer")),
         Field.ofVal (pyOr (r.get "location") (r.get "city")),
         Field.ofVal (pyOr (pyOr (r.get "url") (r.get "link")) (r.get "job_url"))⟩

/-- `JobsScraper._parse_active_jobs_db_job` with its `except` clause. -/
def parseActiveJobsDbJob (cleaner : String → Except PyError String) (r : RawRecord) :
    Option Job :=
  match parseActiveJobsDbBody cleaner r with
  | .ok j => some j
  | .error _ => none

/-- The per-record loop of `_fetch_jsearch_jobs` (src/scraper.py lines
120-123): append each parsed record, skipping the ones parsed to `None`. -/
def processJsearchBatch (cleaner : String → Except PyError String)
    (records : List RawRecord) : List Job :=
  records.filterMap (parseJsearchJob cleaner)

/-- The per-record loop of `_fetch_active_jobs_db` (src/scraper.py lines
160-163). -/
def processActiveJobsDbBatch (cleaner : String → Except PyError String)
    (records : List RawRecord) : List Job :=
  records.filterMap (parseActiveJobsDbJob cleaner)

/-- `element.text.strip() or "-"` / `get_attribute(..) or "-"` in
src/linkedin.py: the extracted string when present and non-empty, else the
`"-"` placeholder (also used when the lookup raised). -/
def dashDefault : Option String → String
  | none => "-"
  | some s => if s.data.isEmpty then "-" else s

/-- The per-card extraction of src/linkedin.py lines 88-137: every field
starts at `"-"` and is overwritten only by a successfully extracted
non-empty string; the description is a fixed placeholder. -/
def linkedinExtract (logo title company location url : Option String) : Job :=
  ⟨.str (dashDefault logo),
   .str (dashDefault title),
   .str "Job description not available in list view",
   .str (dashDefault company),
   .str (dashDefault location),
   .str (dashDefault url)⟩

/-- Result counters of a Supabase batch-insert run. -/
structure InsertResult where
  totalInserted : Nat
  totalFailed : Nat
  batches : List Nat
deriving DecidableEq

/-- The batch loop of `_insert_to_supabase`, fuelled by the list length so
that the recursion is structural (each iteration consumes at least one
listing, so fuel `jobs.length` is always enough; the source batch sizes 100
and 50 are positive).  `oracle i` tells whether the `insert(...).execute()`
call of the `i`-th batch succeeds; a failing batch adds its length to
`totalFailed` and the loop continues (src/scraper.py lines 328-340,
src/linkedin.py lines 195-207). -/
def insertLoopFuel (oracle : Nat → Bool) (bs : Nat) : Nat → Nat → List Job → InsertResult
  | _, _, [] => ⟨0, 0, []⟩
  | 0, _, _ :: _ => ⟨0, 0, []⟩
  | fuel + 1, idx, j :: rest =>
    let batch := j :: rest.take (bs - 1)
    let r := insertLoopFuel oracle bs fuel (idx + 1) (rest.drop (bs - 1))
    if oracle idx then
      ⟨batch.length + r.totalInserted, r.totalFailed, batch.length :: r.batches⟩
    else
      ⟨r.totalInserted, batch.length + r.totalFailed, batch.length :: r.batches⟩

/-- The batch-insert loop over a whole listing list. -/
def insertLoop (oracle : Nat → Bool) (bs : Nat) (jobs : List Job) : InsertResult :=
  insertLoopFuel oracle bs jobs.length 0 jobs

/-- `JobsScraper._insert_to_supabase` (src/scraper.py lines 316-350):
batch size 100. -/
def insertToSupabase (oracle : Nat → Bool) (jobs : List Job) : InsertResult :=
  insertLoop oracle 100 jobs

/-- `_insert_to_supabase` of src/linkedin.py (lines 183-217): batch size 50. -/
def linkedinInsertToSupabase (oracle : Nat → Bool) (jobs : List Job) : InsertResult :=
  insertLoop oracle 50 jobs

/-- Modelled from the spec: the sizes of the consecutive fixed-size batches
(`k + 1` per batch, the last batch possibly smaller) a list of `n` listings
is partitioned into, fuelled like `insertLoopFuel`. -/
def chunkSizesFuel (k : Nat) : Nat → Nat → List Nat
  | _, 0 => []
  | 0, _ + 1 => []
  | fuel + 1, n + 1 => (1 + min k n) :: chunkSizesFuel k fuel (n - k)

/-- Modelled from the spec: batch sizes of a `bs`-sized partition of `n`
listings. -/
def chunkSizes (bs n : Nat) : List Nat := chunkSizesFuel (bs - 1) n n

/-- Sum of the sizes of those attempted batches (numbered from `idx`) whose
oracle outcome equals `want`. -/
def sumSelected (oracle : Nat → Bool) (want : Bool) : Nat → List Nat → Nat
  | _, [] => 0
  | idx, b :: rest =>
    (if oracle idx = want then b else 0) + sumSelected oracle want (idx + 1) rest

/-- Truthiness of an environment variable (`os.getenv` returns `None` for
an unset variable; the empty string is also falsy). -/
def truthyEnv : Option String → Bool
  | none => false
  | some s => !s.data.isEmpty

/-- `JobsScraper.__init__` (src/scraper.py lines 22-33): raises
`ValueError` when `SUPABASE_URL` or `SUPABASE_KEY` is unset or empty. -/
def scraperInit (supabaseUrl supabaseKey : Option String) : Except PyError Unit :=
  if !truthyEnv supabaseUrl || !truthyEnv supabaseKey then .error .valueError
  else .ok ()

/-- Observable effects of one `JobsScraper.run`. -/
structure RunEffects where
  jsonWritten : Bool
  totalInserted : Nat
  totalFailed : Nat
deriving DecidableEq

/-- `JobsScraper.run` (src/scraper.py lines 50-92) after the fetches, which
never raise (each query is wrapped in its own `try`): concatenate the two
listings of both sources, deduplicate (NOT wrapped in any `try`: an exception here
propagates), then write the JSON file (`_save_to_json` catches its own
errors, so `jsonOk` records whether the write itself succeeded) and insert
into Supabase (`_insert_to_supabase` catches its own errors). -/
def runPipeline (jsearchJobs activeJobs : List Job) (jsonOk : Bool)
    (insertOracle : Nat → Bool) : Except PyError (List Job × RunEffects) :=
  match removeDuplicates (jsearchJobs ++ activeJobs) with
  | .error e => .error e
  | .ok uniq =>
    .ok (uniq, ⟨jsonOk, (insertToSupabase insertOracle uniq).totalInserted,
                (insertToSupabase insertOracle uniq).totalFailed⟩)

/-- The `__main__` flow of src/scraper.py: construct the scraper (which can
raise on missing configuration), then run it. -/
def scraperMain (supabaseUrl supabaseKey : Option String)
    (jsearchJobs activeJobs : List Job) (jsonOk : Bool) (insertOracle : Nat → Bool) :
    Except PyError (List Job × RunEffects) :=
  match scraperInit supabaseUrl supabaseKey with
  | .error e => .error e
  | .ok _ => runPipeline jsearchJobs activeJobs jsonOk insertOracle

/-- Observable outcome of `scrape_linkedin_jobs` (src/linkedin.py). -/
structure LinkedinRunResult where
  credsWarned : Bool
  jsonJobs : Option Nat
  dbInsertAttempted : Bool
deriving DecidableEq

/-- `scrape_linkedin_jobs` (src/linkedin.py lines 23-180): missing
credentials only cause a warning and disable the database insert; the
browser-driven scrape is modelled by `driverResult` (its failure is caught
by the outer `except`, after which nothing is written). -/
def scrapeLinkedinJobs (supabaseUrl supabaseKey : Option String)
    (driverResult : Except PyError (List Job)) : LinkedinRunResult :=
  match driverResult with
  | .error _ => ⟨!(truthyEnv supabaseUrl && truthyEnv supabaseKey), none, false⟩
  | .ok jobs => ⟨!(truthyEnv supabaseUrl && truthyEnv supabaseKey), some jobs.length,
                 truthyEnv supabaseUrl && truthyEnv supabaseKey⟩

/-- A computed dedup key agrees with `keyVal`. -/
theorem dedupKey_ok_eq (j : Job) (h : exceptOk (dedupKey j) = true) :
    dedupKey j = .ok (keyVal j) := by
  cases hd : dedupKey j with
  | ok k => simp [keyVal, hd]
  | error e => rw [hd] at h; simp [exceptOk] at h

/-- When the key of every listing computes, `_remove_duplicates` returns the
accumulator followed by the first-occurrence filtering of the rest. -/
theorem removeDuplicatesAux_eq_specAux (jobs : List Job) :
    ∀ (seen : List String) (acc : List Job),
    (∀ j ∈ jobs, exceptOk (dedupKey j) = true) →
    removeDuplicatesAux jobs seen acc = .ok (acc.reverse ++ specAux jobs seen) := by
  induction jobs with
  | nil => intro seen acc _; simp [removeDuplicatesAux, specAux]
  | cons j rest ih =>
    intro seen acc h
    have hj : dedupKey j = .ok (keyVal j) := dedupKey_ok_eq j (h j (by simp))
    have hrest : ∀ x ∈ rest, exceptOk (dedupKey x) = true := fun x hx => h x (by simp [hx])
    simp only [removeDuplicatesAux, hj, specAux]
    by_cases hc : keyVal j ∈ seen ∨ keyVal j = "_"
    · rw [if_neg (by tauto), if_pos hc]
      exact ih seen acc hrest
    · push_neg at hc
      rw [if_pos hc, if_neg (by tauto)]
      rw [ih (keyVal j :: seen) (j :: acc) hrest]
      simp

/-- If `_remove_duplicates` returned normally, the key of every input
listing computed (the loop visits every listing). -/
theorem removeDuplicatesAux_ok_keys (jobs : List Job) :
    ∀ (seen : List String) (acc ys : List Job),
    removeDuplicatesAux jobs seen acc = .ok ys →
    ∀ j ∈ jobs, exceptOk (dedupKey j) = true := by
  induction jobs with
  | nil => intro _ _ _ _ j hj; simp at hj
  | cons j rest ih =>
    intro seen acc ys hrun x hx
    cases hd : dedupKey j with
    | error e =>
      simp only [removeDuplicatesAux, hd] at hrun
      exact absurd hrun (by simp)
    | ok k =>
      simp only [removeDuplicatesAux, hd] at hrun
      rcases List.mem_cons.mp hx with rfl | hx
      · simp [exceptOk, hd]
      · split at hrun
        · exact ih _ _ _ hrun x hx
        · exact ih _ _ _ hrun x hx

/-- `specAux` only inspects `seen` through membership. -/
theorem specAux_seen_congr (jobs : List Job) :
    ∀ (s1 s2 : List String), (∀ k : String, k ∈ s1 ↔ k ∈ s2) →
    specAux jobs s1 = specAux jobs s2 := by
  induction jobs with
  | nil => intro _ _ _; simp [specAux]
  | cons j rest ih =>
    intro s1 s2 h
    simp only [specAux]
    by_cases hc : keyVal j ∈ s1 ∨ keyVal j = "_"
    · have hc2 : keyVal j ∈ s2 ∨ keyVal j = "_" := by
        rcases hc with hc | hc
        · exact Or.inl ((h _).mp hc)
        · exact Or.inr hc
      rw [if_pos hc, if_pos hc2]
      exact ih s1 s2 h
    · have hc2 : ¬(keyVal j ∈ s2 ∨ keyVal j = "_") := by
        intro hx
        rcases hx with hx | hx
        · exact hc (Or.inl ((h _).mpr hx))
        · exact hc (Or.inr hx)
      rw [if_neg hc, if_neg hc2]
      refine congrArg (List.cons j) (ih _ _ ?_)
      intro k
      simp only [List.mem_cons, h k]

/-- Recording a non-degenerate key as seen is the same as deleting all
later listings carrying that key. -/
theorem specAux_cons_eq_filter (k : String) (jobs : List Job) :
    ∀ (seen : List String),
    specAux jobs (k :: seen) = specAux (jobs.filter (fun j2 => keyVal j2 != k)) seen := by
  induction jobs with
  | nil => intro _; simp [specAux]
  | cons j rest ih =>
    intro seen
    by_cases hjk : keyVal j = k
    · have hfil : (j :: rest).filter (fun j2 => keyVal j2 != k)
          = rest.filter (fun j2 => keyVal j2 != k) := by
        simp [List.filter_cons, hjk]
      rw [hfil]
      simp only [specAux]
      rw [if_pos (Or.inl (by simp [hjk]))]
      exact ih seen
    · have hfil : (j :: rest).filter (fun j2 => keyVal j2 != k)
          = j :: rest.filter (fun j2 => keyVal j2 != k) := by
        simp [List.filter_cons, hjk]
      rw [hfil]
      by_cases hc : keyVal j ∈ seen ∨ keyVal j = "_"
      · simp only [specAux]
        have h1 : keyVal j ∈ k :: seen ∨ keyVal j = "_" := by
          rcases hc with hc | hc
          · exact Or.inl (List.mem_cons_of_mem _ hc)
          · exact Or.inr hc
        rw [if_pos h1, if_pos hc]
        exact ih seen
      · simp only [specAux]
        push_neg at hc
        have h1 : ¬(keyVal j ∈ k :: seen ∨ keyVal j = "_") := by
          push_neg
          exact ⟨by simp [List.mem_cons, hjk, hc.1], hc.2⟩
        rw [if_neg h1, if_neg (by push_neg; exact hc)]
        refine congrArg (List.cons j) ?_
        calc specAux rest (keyVal j :: k :: seen)
            = specAux rest (k :: keyVal j :: seen) := by
              refine specAux_seen_congr rest _ _ ?_
              intro x
              simp only [List.mem_cons]
              tauto
          _ = specAux (rest.filter (fun j2 => keyVal j2 != k)) (keyVal j :: seen) :=
              ih (keyVal j :: seen)

/-- The spec-side deduplicator agrees with the accumulator form. -/
theorem specDedupe_eq_specAux_bounded (n : Nat) :
    ∀ (jobs : List Job), jobs.length ≤ n → specDedupe jobs = specAux jobs [] := by
  induction n with
  | zero =>
    intro jobs h
    have : jobs = [] := List.length_eq_zero.mp (Nat.le_zero.mp h)
    subst this
    simp [specDedupe, specAux]
  | succ n ih =>
    intro jobs h
    cases jobs with
    | nil => simp [specDedupe, specAux]
    | cons j rest =>
      simp only [List.length_cons, Nat.succ_le_succ_iff] at h
      by_cases hc : keyVal j = "_"
      · simp only [specDedupe, specAux]
        rw [if_pos hc, if_pos (Or.inr hc)]
        exact ih rest h
      · simp only [specDedupe, specAux]
        rw [if_neg hc, if_neg (by simp [hc])]
        refine congrArg (List.cons j) ?_
        rw [ih (rest.filter (fun j2 => keyVal j2 != keyVal j))
          (le_trans (List.length_filter_le _ _) h)]
        exact (specAux_cons_eq_filter (keyVal j) rest []).symm ▸ rfl

/-- The spec-side deduplicator agrees with the accumulator form. -/
theorem specDedupe_eq_specAux (jobs : List Job) : specDedupe jobs = specAux jobs [] :=
  specDedupe_eq_specAux_bounded jobs.length jobs le_rfl

/-- Elements of `specAux jobs seen` come from `jobs`, carry keys not in
`seen` and not degenerate, and their keys are pairwise distinct. -/
theorem specAux_sound (jobs : List Job) :
    ∀ (seen : List String),
    (∀ j ∈ specAux jobs seen, j ∈ jobs ∧ keyVal j ∉ seen ∧ keyVal j ≠ "_")
    ∧ ((specAux jobs seen).map keyVal).Nodup := by
  induction jobs with
  | nil => intro seen; simp [specAux]
  | cons j rest ih =>
    intro seen
    simp only [specAux]
    by_cases hc : keyVal j ∈ seen ∨ keyVal j = "_"
    · rw [if_pos hc]
      obtain ⟨h1, h2⟩ := ih seen
      refine ⟨fun x hx => ?_, h2⟩
      obtain ⟨hm, hs, hu⟩ := h1 x hx
      exact ⟨List.mem_cons_of_mem _ hm, hs, hu⟩
    · rw [if_neg hc]
      push_neg at hc
      obtain ⟨h1, h2⟩ := ih (keyVal j :: seen)
      constructor
      · intro x hx
        rcases List.mem_cons.mp hx with rfl | hx
        · exact ⟨List.mem_cons_self _ _, hc.1, hc.2⟩
        · obtain ⟨hm, hs, hu⟩ := h1 x hx
          exact ⟨List.mem_cons_of_mem _ hm,
                 fun hxx => hs (List.mem_cons_of_mem _ hxx), hu⟩
      · simp only [List.map_cons, List.nodup_cons]
        refine ⟨fun hmem => ?_, h2⟩
        rcases List.mem_map.mp hmem with ⟨x, hx, hkx⟩
        exact (h1 x hx).2.1 (by rw [hkx]; exact List.mem_cons_self _ _)

/-- A list whose keys all compute, avoid `seen`, avoid the degenerate key,
and are pairwise distinct passes through `_remove_duplicates` unchanged. -/
theorem removeDuplicatesAux_fresh (ys : List Job) :
    ∀ (seen : List String) (acc : List Job),
    (∀ j ∈ ys, exceptOk (dedupKey j) = true) →
    (∀ j ∈ ys, keyVal j ∉ seen ∧ keyVal j ≠ "_") →
    ((ys.map keyVal).Nodup) →
    removeDuplicatesAux ys seen acc = .ok (acc.reverse ++ ys) := by
  induction ys with
  | nil => intro _ _ _ _ _; simp [removeDuplicatesAux]
  | cons j rest ih =>
    intro seen acc hok hfresh hnd
    have hj : dedupKey j = .ok (keyVal j) := dedupKey_ok_eq j (hok j (by simp))
    simp only [removeDuplicatesAux, hj]
    rw [if_pos ⟨(hfresh j (by simp)).1, (hfresh j (by simp)).2⟩]
    simp only [List.map_cons, List.nodup_cons] at hnd
    rw [ih (keyVal j :: seen) (j :: acc)
      (fun x hx => hok x (by simp [hx]))
      (fun x hx => ⟨by
        simp only [List.mem_cons]
        push_neg
        refine ⟨fun hxk => hnd.1 ?_, (hfresh x (by simp [hx])).1⟩
        rw [← hxk]
        exact List.mem_map_of_mem _ hx,
        (hfresh x (by simp [hx])).2⟩)
      hnd.2]
    simp

/-- The attempted batches are exactly the consecutive chunks of the input,
independent of which insert calls fail. -/
theorem insertLoopFuel_batches (fuel : Nat) :
    ∀ (oracle : Nat → Bool) (bs idx : Nat) (jobs : List Job),
    (insertLoopFuel oracle bs fuel idx jobs).batches
      = chunkSizesFuel (bs - 1) fuel jobs.length := by
  induction fuel with
  | zero =>
    intro oracle bs idx jobs
    cases jobs <;> simp [insertLoopFuel, chunkSizesFuel]
  | succ fuel ih =>
    intro oracle bs idx jobs
    cases jobs with
    | nil => simp [insertLoopFuel, chunkSizesFuel]
    | cons j rest =>
      simp only [insertLoopFuel, List.length_cons]
      split <;>
        · simp only [chunkSizesFuel, ih]
          congr 1
          · simp only [List.length_cons, List.length_take]
            omega
          · simp [List.length_drop]

/-- Every listing ends up counted exactly once: inserted or failed. -/
theorem insertLoopFuel_totals (fuel : Nat) :
    ∀ (oracle : Nat → Bool) (bs idx : Nat) (jobs : List Job),
    jobs.length ≤ fuel →
    (insertLoopFuel oracle bs fuel idx jobs).totalInserted
      + (insertLoopFuel oracle bs fuel idx jobs).totalFailed = jobs.length := by
  induction fuel with
  | zero =>
    intro oracle bs idx jobs h
    have : jobs = [] := List.length_eq_zero.mp (Nat.le_zero.mp h)
    subst this
    simp [insertLoopFuel]
  | succ fuel ih =>
    intro oracle bs idx jobs h
    cases jobs with
    | nil => simp [insertLoopFuel]
    | cons j rest =>
      simp only [List.length_cons] at h
      have hr := ih oracle bs (idx + 1) (rest.drop (bs - 1))
        (by simp only [List.length_drop]; omega)
      simp only [List.length_drop] at hr
      simp only [insertLoopFuel]
      split <;>
        · simp only [List.length_cons, List.length_take]
          omega

/-- A successful batch adds its length to `totalInserted`, a failed batch
adds its length to `totalFailed`. -/
theorem insertLoopFuel_sums (fuel : Nat) :
    ∀ (oracle : Nat → Bool) (bs idx : Nat) (jobs : List Job),
    (insertLoopFuel oracle bs fuel idx jobs).totalInserted
      = sumSelected oracle true idx (insertLoopFuel oracle bs fuel idx jobs).batches
    ∧ (insertLoopFuel oracle bs fuel idx jobs).totalFailed
      = sumSelected oracle false idx (insertLoopFuel oracle bs fuel idx jobs).batches := by
  induction fuel with
  | zero =>
    intro oracle bs idx jobs
    cases jobs <;> simp [insertLoopFuel, sumSelected]
  | succ fuel ih =>
    intro oracle bs idx jobs
    cases jobs with
    | nil => simp [insertLoopFuel, sumSelected]
    | cons j rest =>
      obtain ⟨h1, h2⟩ := ih oracle bs (idx + 1) (rest.drop (bs - 1))
      simp only [insertLoopFuel]
      rcases ho : oracle idx with _ | _ <;>
        simp [ho, sumSelected, h1, h2]

/-- The result of the insert loop depends only on the length of the input. -/
theorem insertLoopFuel_length_invariant (fuel : Nat) :
    ∀ (oracle : Nat → Bool) (bs idx : Nat) (jobs jobs2 : List Job),
    jobs.length = jobs2.length →
    insertLoopFuel oracle bs fuel idx jobs = insertLoopFuel oracle bs fuel idx jobs2 := by
  induction fuel with
  | zero =>
    intro oracle bs idx jobs jobs2 h
    cases jobs <;> cases jobs2 <;> simp_all [insertLoopFuel]
  | succ fuel ih =>
    intro oracle bs idx jobs jobs2 h
    cases jobs with
    | nil =>
      cases jobs2 with
      | nil => rfl
      | cons j2 rest2 => simp at h
    | cons j rest =>
      cases jobs2 with
      | nil => simp at h
      | cons j2 rest2 =>
        simp only [List.length_cons, Nat.succ.injEq] at h
        have hrec := ih oracle bs (idx + 1) (rest.drop (bs - 1)) (rest2.drop (bs - 1))
          (by simp [List.length_drop, h])
        have hbatch : (j :: rest.take (bs - 1)).length = (j2 :: rest2.take (bs - 1)).length := by
          simp [List.length_take, h]
        simp only [insertLoopFuel, hrec, hbatch]

/-- C1 (counterexample): the claim "the run never raises past its boundary:
any stage failure (extraction, dedup, file sink, remote sink) is caught" is
false: a normalized listing whose `title` is bound to `None` (exactly what
`_parse_jsearch_job` produces for a record without `job_title`) makes the
dedup stage raise `AttributeError`, and `run` has no handler around
`_remove_duplicates`, so the exception escapes `run`. -/
theorem run_raises_on_null_title :
    runPipeline [nullJob] [] true (fun _ => true) = .error .attributeError := by decide

/-- C1 (amended): `run` catches failures of the extraction, file-sink and
remote-sink stages internally — when the dedup key of every listing computes
(no `None` title or company), the run completes normally and the JSON file
is still produced no matter how the insert calls of the remote sink fail; but
the dedup stage itself is unguarded (see the counterexample). -/
theorem run_best_effort (jsearchJobs activeJobs : List Job) (insertOracle : Nat → Bool)
    (h : ∀ j ∈ jsearchJobs ++ activeJobs, exceptOk (dedupKey j) = true) :
    ∃ out, runPipeline jsearchJobs activeJobs true insertOracle = .ok out
      ∧ out.2.jsonWritten = true := by
  have hd : removeDuplicates (jsearchJobs ++ activeJobs)
      = .ok (specAux (jsearchJobs ++ activeJobs) []) := by
    have := removeDuplicatesAux_eq_specAux (jsearchJobs ++ activeJobs) [] [] h
    simpa [removeDuplicates] using this
  refine ⟨(specAux (jsearchJobs ++ activeJobs) [],
    ⟨true,
     (insertToSupabase insertOracle (specAux (jsearchJobs ++ activeJobs) [])).totalInserted,
     (insertToSupabase insertOracle (specAux (jsearchJobs ++ activeJobs) [])).totalFailed⟩),
    ?_, rfl⟩
  simp only [runPipeline, hd]

/-- C1 (witness). -/
theorem run_best_effort_witness :
    (∀ j ∈ [titledJob "A" "X"] ++ ([] : List Job), exceptOk (dedupKey j) = true)
    ∧ ∃ out, runPipeline [titledJob "A" "X"] [] true (fun _ => false) = .ok out
        ∧ out.2.jsonWritten = true :=
  ⟨by decide, run_best_effort [titledJob "A" "X"] [] (fun _ => false) (by decide)⟩

/-- C2 (code bug): the spec (and the comment in the source, "Ensure both
title and company exist") intends a listing whose title and company are
both absent to be dropped, but `_remove_duplicates` evaluates
a lowercasing of the title obtained by a dict-get whose default is the
empty string, and the parsers bind absent fields to
`None` (not to a missing key), so the degenerate listing makes the whole
dedup call raise `AttributeError` instead of being excluded: here the
listing `_parse_jsearch_job` builds from an empty record crashes a
singleton dedup rather than yielding `[]`. -/
theorem dedupe_crashes_on_sentinel_listing :
    parseJsearchJob (fun s => .ok s) [] = some nullJob
    ∧ removeDuplicates [nullJob] = .error .attributeError := by
  exact ⟨by decide, by decide⟩

/-- C3: deduplication is idempotent: running `_remove_duplicates` on its
own (non-raising) output returns that output unchanged, stated as a Kleisli
composition so the raising case is covered as well. -/
theorem dedupe_idempotent (X : List Job) :
    (removeDuplicates X).bind removeDuplicates = removeDuplicates X := by
  cases hX : removeDuplicates X with
  | error e => rfl
  | ok ys =>
    show removeDuplicates ys = _
    have hkeys := removeDuplicatesAux_ok_keys X [] [] ys hX
    have hys : ys = specAux X [] := by
      have h2 := removeDuplicatesAux_eq_specAux X [] [] hkeys
      rw [removeDuplicates] at hX
      rw [h2] at hX
      simpa using hX.symm
    obtain ⟨h1, h2⟩ := specAux_sound X []
    rw [removeDuplicates, removeDuplicatesAux_fresh ys [] []
      (fun j hj => hkeys j (h1 j (hys ▸ hj)).1)
      (fun j hj => ⟨by simp, (h1 j (hys ▸ hj)).2.2⟩)
      (hys ▸ h2)]
    simp

/-- C4: on any input whose dedup keys all compute (the key formula
`lowercase(title) + "_" + lowercase(company)` presupposes both are
strings), `_remove_duplicates` returns exactly the first-occurring listing
of each distinct non-degenerate key, in input order, dropping every later
listing with an identical key — `specDedupe` is that specification, written
independently as "keep the first listing, delete all later listings with
the same key, recurse". -/
theorem dedupe_first_occurrence (X : List Job)
    (h : ∀ j ∈ X, exceptOk (dedupKey j) = true) :
    removeDuplicates X = .ok (specDedupe X) := by
  rw [specDedupe_eq_specAux]
  have := removeDuplicatesAux_eq_specAux X [] [] h
  simpa [removeDuplicates] using this

/-- C4 (witness): `[A(key k1), B(key k2), C(key k1)]` keeps `[A, B]`. -/
theorem dedupe_first_occurrence_witness :
    (∀ j ∈ [titledJob "A" "X", titledJob "B" "Y", titledJob "a" "x"],
        exceptOk (dedupKey j) = true)
    ∧ removeDuplicates [titledJob "A" "X", titledJob "B" "Y", titledJob "a" "x"]
        = .ok (specDedupe [titledJob "A" "X", titledJob "B" "Y", titledJob "a" "x"]) :=
  ⟨by decide, dedupe_first_occurrence _ (by decide)⟩

/-- C5 (counterexample): the claim "absence of remote-sink credentials is
not fatal to a run ... for every run" is false for the multi-source
scraper: with `SUPABASE_URL` and `SUPABASE_KEY` unset, `JobsScraper.__init__`
raises `ValueError` and the whole run aborts before any fetch, so no JSON
file is produced. -/
theorem scraper_main_missing_creds_fatal :
    scraperMain none none [] [] true (fun _ => true) = .error .valueError := by decide

/-- C5 (amended): in the LinkedIn script, missing credentials are not
fatal: a warning is emitted, the JSON file is still produced (when the
scrape itself succeeds), and only the database insert is skipped; in the
multi-source scraper, by contrast, missing `SUPABASE_URL`/`SUPABASE_KEY`
aborts the run with `ValueError` at construction. -/
theorem creds_absence_not_fatal_linkedin_only (url key : Option String) (jobs : List Job)
    (h : (truthyEnv url && truthyEnv key) = false) :
    scrapeLinkedinJobs url key (.ok jobs) = ⟨true, some jobs.length, false⟩
    ∧ scraperInit url key = .error .valueError := by
  constructor
  · simp [scrapeLinkedinJobs, h]
  · have hcond : (!truthyEnv url || !truthyEnv key) = true := by
      rw [← Bool.not_and, h]
      rfl
    simp [scraperInit, hcond]

/-- C5 (witness). -/
theorem creds_absence_witness :
    ((truthyEnv none && truthyEnv (some "k")) = false)
    ∧ scrapeLinkedinJobs none (some "k") (.ok []) = ⟨true, some 0, false⟩
    ∧ scraperInit none (some "k") = .error .valueError :=
  ⟨by decide,
   (creds_absence_not_fatal_linkedin_only none (some "k") [] (by decide)).1,
   (creds_absence_not_fatal_linkedin_only none (some "k") [] (by decide)).2⟩

/-- C6: per-record extraction never raises past its boundary: an internal
exception (here injected through the HTML cleaner) makes the parser return
`None`, the record is not appended, and the batch loop processes the
remaining records exactly as if the failing record were absent — for both
`_parse_jsearch_job` and `_parse_active_jobs_db_job`. -/
theorem extraction_isolates_record_failures
    (cleaner : String → Except PyError String) (rs1 rs2 : List RawRecord)
    (bad bad2 : RawRecord)
    (h1 : exceptOk (parseJsearchBody cleaner bad) = false)
    (h2 : exceptOk (parseActiveJobsDbBody cleaner bad2) = false) :
    parseJsearchJob cleaner bad = none
    ∧ parseActiveJobsDbJob cleaner bad2 = none
    ∧ processJsearchBatch cleaner (rs1 ++ bad :: rs2) = processJsearchBatch cleaner (rs1 ++ rs2)
    ∧ processActiveJobsDbBatch cleaner (rs1 ++ bad2 :: rs2)
        = processActiveJobsDbBatch cleaner (rs1 ++ rs2) := by
  have hn1 : parseJsearchJob cleaner bad = none := by
    unfold parseJsearchJob
    cases hb : parseJsearchBody cleaner bad with
    | ok j => rw [hb] at h1; simp [exceptOk] at h1
    | error e => rfl
  have hn2 : parseActiveJobsDbJob cleaner bad2 = none := by
    unfold parseActiveJobsDbJob
    cases hb : parseActiveJobsDbBody cleaner bad2 with
    | ok j => rw [hb] at h2; simp [exceptOk] at h2
    | error e => rfl
  refine ⟨hn1, hn2, ?_, ?_⟩
  · simp [processJsearchBatch, List.filterMap_append, List.filterMap_cons, hn1]
  · simp [processActiveJobsDbBatch, List.filterMap_append, List.filterMap_cons, hn2]

/-- A cleaner standing for a `BeautifulSoup` call that raises. -/
def failingCleaner : String → Except PyError String := fun _ => .error .runtimeError

/-- A JSearch record whose description triggers the (failing) cleaner. -/
def badJsearchRecord : RawRecord := [("job_description", PyVal.str "<p>x")]

/-- An Active-Jobs-DB record whose description triggers the cleaner. -/
def badActiveRecord : RawRecord := [("description", PyVal.str "<p>x")]

/-- A record that parses fine under any cleaner. -/
def goodRecord : RawRecord := [("job_title", PyVal.str "T")]

/-- C6 (witness). -/
theorem extraction_isolates_witness :
    (exceptOk (parseJsearchBody failingCleaner badJsearchRecord) = false)
    ∧ (exceptOk (parseActiveJobsDbBody failingCleaner badActiveRecord) = false)
    ∧ parseJsearchJob failingCleaner badJsearchRecord = none
    ∧ parseActiveJobsDbJob failingCleaner badActiveRecord = none
    ∧ processJsearchBatch failingCleaner ([goodRecord] ++ badJsearchRecord :: [goodRecord])
        = processJsearchBatch failingCleaner ([goodRecord] ++ [goodRecord])
    ∧ processActiveJobsDbBatch failingCleaner ([goodRecord] ++ badActiveRecord :: [goodRecord])
        = processActiveJobsDbBatch failingCleaner ([goodRecord] ++ [goodRecord]) :=
  ⟨by decide, by decide,
   (extraction_isolates_record_failures failingCleaner [goodRecord] [goodRecord]
      badJsearchRecord badActiveRecord (by decide) (by decide)).1,
   (extraction_isolates_record_failures failingCleaner [goodRecord] [goodRecord]
      badJsearchRecord badActiveRecord (by decide) (by decide)).2.1,
   (extraction_isolates_record_failures failingCleaner [goodRecord] [goodRecord]
      badJsearchRecord badActiveRecord (by decide) (by decide)).2.2.1,
   (extraction_isolates_record_failures failingCleaner [goodRecord] [goodRecord]
      badJsearchRecord badActiveRecord (by decide) (by decide)).2.2.2⟩

/-- C7: the extracted location is `"{city}, {country}"` when both the
city-like and country-like fields are present and non-empty (Python
truthiness), else whichever of the two is present and non-empty, else the
generic `job_location` value — which is the `None` absence sentinel when
that key is missing too. -/
theorem location_composition (r : RawRecord) :
    ((r.get "job_city").truthy = true → (r.get "job_country").truthy = true →
        parseLocation r
          = .str ((r.get "job_city").asString ++ ", " ++ (r.get "job_country").asString))
    ∧ ((r.get "job_city").truthy = true → (r.get "job_country").truthy = false →
        parseLocation r = r.get "job_city")
    ∧ ((r.get "job_city").truthy = false → (r.get "job_country").truthy = true →
        parseLocation r = r.get "job_country")
    ∧ ((r.get "job_city").truthy = false → (r.get "job_country").truthy = false →
        parseLocation r = r.get "job_location") := by
  refine ⟨?_, ?_, ?_, ?_⟩ <;> intro h1 h2 <;> simp [parseLocation, h1, h2]

/-- A JSearch record with both city and country. -/
def parisFranceRecord : RawRecord :=
  [("job_city", PyVal.str "Paris"), ("job_country", PyVal.str "France")]

/-- A JSearch record with only a city. -/
def parisRecord : RawRecord := [("job_city", PyVal.str "Paris")]

/-- A raw record with no keys at all. -/
def emptyRecord : RawRecord := []

/-- C7 (witness): Paris+France, Paris alone, and the empty record. -/
theorem location_composition_witness :
    ((parisFranceRecord.get "job_city").truthy = true
     ∧ (parisFranceRecord.get "job_country").truthy = true
     ∧ parseLocation parisFranceRecord = .str "Paris, France")
    ∧ ((parisRecord.get "job_city").truthy = true
       ∧ (parisRecord.get "job_country").truthy = false
       ∧ parseLocation parisRecord = .str "Paris")
    ∧ ((emptyRecord.get "job_city").truthy = false
       ∧ parseLocation emptyRecord = .null) := by
  refine ⟨⟨by decide, by decide, ?_⟩, ⟨by decide, by decide, ?_⟩, by decide, ?_⟩
  · exact ((location_composition parisFranceRecord).1 (by decide) (by decide)).trans (by decide)
  · exact ((location_composition parisRecord).2.1 (by decide) (by decide)).trans (by decide)
  · exact ((location_composition emptyRecord).2.2.2 (by decide) (by decide)).trans (by decide)

/-- C8: remote insertion partitions the input into consecutive batches of
the fixed batch size (last batch possibly smaller) — the attempted batches
do not depend on which insert calls fail, each successful batch adds its
length to `totalInserted` and each failed batch adds its length to
`totalFailed`; with 120 listings and the LinkedIn batch size 50, batches
50/50/20 are attempted, and when exactly the 2nd fails the totals are
`total_inserted = 70` and `total_failed = 50` with the 3rd batch still
attempted. -/
theorem batch_insert_isolation (oracle oracle2 : Nat → Bool) (bs : Nat) (jobs : List Job) :
    (insertLoop oracle bs jobs).batches = chunkSizes bs jobs.length
    ∧ (insertLoop oracle bs jobs).batches = (insertLoop oracle2 bs jobs).batches
    ∧ (insertLoop oracle bs jobs).totalInserted
        = sumSelected oracle true 0 (insertLoop oracle bs jobs).batches
    ∧ (insertLoop oracle bs jobs).totalFailed
        = sumSelected oracle false 0 (insertLoop oracle bs jobs).batches
    ∧ (jobs.length = 120 →
        (linkedinInsertToSupabase (fun i => i != 1) jobs).batches = [50, 50, 20]
        ∧ (linkedinInsertToSupabase (fun i => i != 1) jobs).totalInserted = 70
        ∧ (linkedinInsertToSupabase (fun i => i != 1) jobs).totalFailed = 50) := by
  refine ⟨insertLoopFuel_batches jobs.length oracle bs 0 jobs,
    (insertLoopFuel_batches jobs.length oracle bs 0 jobs).trans
      (insertLoopFuel_batches jobs.length oracle2 bs 0 jobs).symm,
    (insertLoopFuel_sums jobs.length oracle bs 0 jobs).1,
    (insertLoopFuel_sums jobs.length oracle bs 0 jobs).2,
    ?_⟩
  intro h120
  have hinv := insertLoopFuel_length_invariant jobs.length (fun i => i != 1) 50 0
    jobs (List.replicate 120 nullJob) (by simp [h120])
  have : linkedinInsertToSupabase (fun i => i != 1) jobs
      = insertLoopFuel (fun i => i != 1) 50 120 0 (List.replicate 120 nullJob) := by
    rw [linkedinInsertToSupabase, insertLoop, hinv, h120]
  rw [this]
  exact ⟨by decide, by decide, by decide⟩

/-- C8 (witness). -/
theorem batch_insert_isolation_witness :
    (List.replicate 120 nullJob).length = 120
    ∧ ((linkedinInsertToSupabase (fun i => i != 1) (List.replicate 120 nullJob)).batches
          = [50, 50, 20]
       ∧ (linkedinInsertToSupabase (fun i => i != 1)
            (List.replicate 120 nullJob)).totalInserted = 70
       ∧ (linkedinInsertToSupabase (fun i => i != 1)
            (List.replicate 120 nullJob)).totalFailed = 50) :=
  ⟨by simp,
   (batch_insert_isolation (fun _ => true) (fun _ => false) 7
      (List.replicate 120 nullJob)).2.2.2.2 (by simp)⟩

/-- C9: every normalized listing produced by any extraction path binds all
six keys — each field is a value or the absence sentinel, never a missing
dictionary key (for the LinkedIn path the sentinel is the string `"-"`,
pre-set before extraction). -/
theorem normalized_listing_all_fields
    (cleaner : String → Except PyError String) (r r2 : RawRecord) (j j2 : Job)
    (h1 : parseJsearchJob cleaner r = some j)
    (h2 : parseActiveJobsDbJob cleaner r2 = some j2)
    (logo title company location url : Option String) :
    (j.logo ≠ .missing ∧ j.title ≠ .missing ∧ j.description ≠ .missing
      ∧ j.company ≠ .missing ∧ j.location ≠ .missing ∧ j.url ≠ .missing)
    ∧ (j2.logo ≠ .missing ∧ j2.title ≠ .missing ∧ j2.description ≠ .missing
      ∧ j2.company ≠ .missing ∧ j2.location ≠ .missing ∧ j2.url ≠ .missing)
    ∧ ((linkedinExtract logo title company location url).logo ≠ .missing
      ∧ (linkedinExtract logo title company location url).title ≠ .missing
      ∧ (linkedinExtract logo title company location url).description ≠ .missing
      ∧ (linkedinExtract logo title company location url).company ≠ .missing
      ∧ (linkedinExtract logo title company location url).location ≠ .missing
      ∧ (linkedinExtract logo title company location url).url ≠ .missing) := by
  have hofv : ∀ v : PyVal, Field.ofVal v ≠ Field.missing := by
    intro v
    cases v <;> simp [Field.ofVal]
  refine ⟨?_, ?_, ?_⟩
  · unfold parseJsearchJob at h1
    cases hb : parseJsearchBody cleaner r with
    | error e => rw [hb] at h1; exact absurd h1 (by simp)
    | ok jj =>
      rw [hb] at h1
      unfold parseJsearchBody at hb
      cases hc : cleanDescription cleaner (r.get "job_description") with
      | error e => rw [hc] at hb; exact absurd hb (by simp)
      | ok d =>
        rw [hc] at hb
        have hjj : jj = j := by simpa using h1
        have := hb
        simp only [Except.ok.injEq] at this
        rw [← hjj, ← this]
        exact ⟨hofv _, hofv _, hofv _, hofv _, hofv _, hofv _⟩
  · unfold parseActiveJobsDbJob at h2
    cases hb : parseActiveJobsDbBody cleaner r2 with
    | error e => rw [hb] at h2; exact absurd h2 (by simp)
    | ok jj =>
      rw [hb] at h2
      unfold parseActiveJobsDbBody at hb
      cases hc : cleanDescription cleaner (r2.get "description") with
      | error e => rw [hc] at hb; exact absurd hb (by simp)
      | ok d =>
        rw [hc] at hb
        have hjj : jj = j2 := by simpa using h2
        have := hb
        simp only [Except.ok.injEq] at this
        rw [← hjj, ← this]
        exact ⟨hofv _, hofv _, hofv _, hofv _, hofv _, hofv _⟩
  · simp [linkedinExtract]

/-- A cleaner standing for a `BeautifulSoup` call that succeeds. -/
def okCleaner : String → Except PyError String := fun s => .ok s

/-- C9 (witness): the empty raw record parses to the all-`None` listing on
both API paths, and the LinkedIn extractor with every lookup failing yields
all-`"-"` fields; no field is ever missing. -/
theorem normalized_listing_all_fields_witness :
    parseJsearchJob okCleaner [] = some nullJob
    ∧ parseActiveJobsDbJob okCleaner [] = some nullJob
    ∧ (nullJob.logo ≠ .missing ∧ nullJob.title ≠ .missing ∧ nullJob.description ≠ .missing
        ∧ nullJob.company ≠ .missing ∧ nullJob.location ≠ .missing ∧ nullJob.url ≠ .missing)
    ∧ (linkedinExtract none none none none none).title ≠ .missing :=
  ⟨by decide, by decide,
   (normalized_listing_all_fields okCleaner [] [] nullJob nullJob (by decide) (by decide)
      none none none none none).1,
   (normalized_listing_all_fields okCleaner [] [] nullJob nullJob (by decide) (by decide)
      none none none none none).2.2.2.1⟩

/-- C10: for every input list and any pattern of per-batch insert
failures, `total_inserted + total_failed` equals the number of listings —
each listing is counted exactly once, in both insertion routines (batch
size 100 in src/scraper.py, 50 in src/linkedin.py). -/
theorem insert_totals_partition (oracle : Nat → Bool) (jobs : List Job) :
    (insertToSupabase oracle jobs).totalInserted
        + (insertToSupabase oracle jobs).totalFailed = jobs.length
    ∧ (linkedinInsertToSupabase oracle jobs).totalInserted
        + (linkedinInsertToSupabase oracle jobs).totalFailed = jobs.length :=
  ⟨insertLoopFuel_totals jobs.length oracle 100 0 jobs le_rfl,
   insertLoopFuel_totals jobs.length oracle 50 0 jobs le_rfl⟩

end DataInternCron
